import Mathlib

/-!
Shallow embedding of the speech turn-taking engine and rate-limited relay
of the summitdemo repository.

Namespace `Relay` models the per-client batching, pacing and retry logic of
`RealtimeWebSocketServer` in src/agent/realtime_server.py:
`_handle_audio_message`, the `pending_transcriptions` counter maintained by
`proxy_openai_to_client`, and `_send_with_retry`.

Namespace `MainWs` models the WebSocket handler `_websocket_handler` of
src/agent/main.py (greeting hold-off, audio accumulation, the
finalize-and-transcribe decision) and the observable event/return behaviour
of `_process_utterance`.

External collaborator calls (Whisper STT, the LLM, TTS, the upstream
socket) are modelled as parameters or outcome oracles; clock reads
(`time.time()`) are modelled by attaching an arrival time to each inbound
message, since the handlers only ever read the clock when a message is
being handled.
-/

namespace Relay

/-- Constant `AUDIO_SEND_INTERVAL` of realtime_server.py: minimum seconds
between audio chunk sends. -/
def AUDIO_SEND_INTERVAL : ℚ := 1

/-- Constant `MAX_AUDIO_BATCH_SIZE` of realtime_server.py: maximum audio
chunks batched together (also the `maxlen` of the per-client deque). -/
def MAX_AUDIO_BATCH_SIZE : ℕ := 5

/-- Constant `RETRY_DELAY_429` of realtime_server.py: seconds to wait
before retrying on a 429 error. -/
def RETRY_DELAY_429 : ℚ := 3

/-- Constant `MAX_RETRIES` of realtime_server.py: maximum number of
retries for 429 errors. -/
def MAX_RETRIES : ℕ := 3

/-- Append on a bounded deque with `maxlen = MAX_AUDIO_BATCH_SIZE`, as in
`deque(maxlen=MAX_AUDIO_BATCH_SIZE).append(message)`: returns the new
buffer contents (oldest first) and the list of elements silently evicted
from the front. Messages are abstracted by numeric identifiers. -/
def dequePush (buf : List ℕ) (m : ℕ) : List ℕ × List ℕ :=
  if MAX_AUDIO_BATCH_SIZE ≤ buf.length then (buf.tail ++ [m], buf.take 1)
  else (buf ++ [m], [])

/-- Per-client relay state: the audio deque (`audio_buffer[client_id]`),
`last_audio_send_time[client_id]`, `pending_transcriptions[client_id]`,
plus observation logs: the batches actually sent upstream (send time and
batch contents), the `throttled_sends` statistic, and the messages evicted
by the bounded deque. -/
structure RelayState where
  buffer : List ℕ
  lastSendTime : ℚ
  pending : ℕ
  sends : List (ℚ × List ℕ)
  throttled : ℕ
  evicted : List ℕ
  deriving Repr, DecidableEq

/-- Events driving one client's relay state: an inbound
`input_audio_buffer.append` handled at time `t` (from
`proxy_client_to_openai` / `_handle_audio_message`), and the two
upstream-side events tracked by `proxy_openai_to_client`:
`input_audio_buffer.speech_started`, and
`conversation.item.input_audio_transcription.completed` / `.failed`
(which have the same effect, so they share a constructor). -/
inductive RelayEvent where
  | audio (t : ℚ) (m : ℕ)
  | speechStarted
  | transcriptionDone
  deriving Repr, DecidableEq

/-- Model of `_handle_audio_message(client_id, message, openai_ws)`:
compute `time_since_last_send`, append the message to the bounded deque,
decide `should_send` from the pacing interval or a full buffer, override
it to false while transcriptions are pending, and either flush the whole
buffer as one batch or leave the message queued. -/
def handleAudio (s : RelayState) (t : ℚ) (m : ℕ) : RelayState :=
  let timeSinceLast := t - s.lastSendTime
  let pushed := dequePush s.buffer m
  -- should_send is first computed from the two timing conditions, then
  -- forced to False when pending_transcriptions > 0
  let shouldSend :=
    (AUDIO_SEND_INTERVAL ≤ timeSinceLast ∨ MAX_AUDIO_BATCH_SIZE ≤ pushed.1.length)
      ∧ s.pending = 0
  if shouldSend ∧ pushed.1 ≠ [] then
    { s with buffer := [], lastSendTime := t,
             sends := s.sends ++ [(t, pushed.1)],
             evicted := s.evicted ++ pushed.2 }
  else
    { s with buffer := pushed.1,
             evicted := s.evicted ++ pushed.2,
             throttled := if shouldSend then s.throttled else s.throttled + 1 }

/-- One step of the relay: audio messages go through `handleAudio`;
`speech_started` increments the pending counter; a transcription
completed/failed event decrements it when positive. -/
def stepRelay (s : RelayState) : RelayEvent → RelayState
  | .audio t m => handleAudio s t m
  | .speechStarted => { s with pending := s.pending + 1 }
  | .transcriptionDone =>
      { s with pending := if 0 < s.pending then s.pending - 1 else s.pending }

/-- Initial per-client state, as set up in `proxy_client_to_openai` and
`proxy_openai_to_client`: empty deque, `last_audio_send_time = 0`, no
pending transcriptions. -/
def initRelay : RelayState :=
  { buffer := [], lastSendTime := 0, pending := 0, sends := [],
    throttled := 0, evicted := [] }

/-- Run the relay over a sequence of events from the initial state. -/
def runRelay (events : List RelayEvent) : RelayState :=
  events.foldl stepRelay initRelay

/-- Outcome of one attempt of `openai_ws.send(message)` as observed by
`_send_with_retry`: success, an exception whose text matches the 429 /
rate-limit test, or any other exception. -/
inductive SendOutcome where
  | ok
  | err429
  | errOther
  deriving Repr, DecidableEq

/-- Observable result of `_send_with_retry`: whether the message was
delivered, whether an exception propagated to the caller, the number of
send attempts performed, and the backoff sleeps performed in order. -/
structure SendResult where
  delivered : Bool
  raised : Bool
  attempts : ℕ
  delays : List ℚ
  deriving Repr, DecidableEq

/-- Model of `_send_with_retry(openai_ws, message, client_id, retries)`.
The oracle `outcome k` is the result of the attempt made with
`retries = k`. A 429 outcome with `retries < MAX_RETRIES` sleeps
`RETRY_DELAY_429` and recurses with `retries + 1`; at the bound the
message is dropped and the exception re-raised; any other exception is
re-raised immediately. -/
def sendWithRetry (outcome : ℕ → SendOutcome) (retries : ℕ) : SendResult :=
  match outcome retries with
  | .ok => { delivered := true, raised := false, attempts := 1, delays := [] }
  | .errOther => { delivered := false, raised := true, attempts := 1, delays := [] }
  | .err429 =>
      if h : retries < MAX_RETRIES then
        let r := sendWithRetry outcome (retries + 1)
        { r with attempts := r.attempts + 1, delays := RETRY_DELAY_429 :: r.delays }
      else
        { delivered := false, raised := true, attempts := 1, delays := [] }
  termination_by MAX_RETRIES + 1 - retries
  decreasing_by omega

/-- Pacing relation between two consecutive batch sends: either they are
at least `AUDIO_SEND_INTERVAL` apart, or the later one is a full batch of
`MAX_AUDIO_BATCH_SIZE` messages (the buffer-full trigger). -/
def pacedOrFull (a b : ℚ × List ℕ) : Prop :=
  AUDIO_SEND_INTERVAL ≤ b.1 - a.1 ∨ b.2.length = MAX_AUDIO_BATCH_SIZE

end Relay

namespace MainWs

/-- Constant `SPEECH_TIMEOUT` of `_websocket_handler`: seconds of silence
after speech before processing. -/
def SPEECH_TIMEOUT : ℚ := 1

/-- The literal 15.0-second wait in `_websocket_handler` before user
audio is accepted after the greeting task has started. -/
def GREETING_HOLD : ℚ := 15

/-- The hard-coded accumulation floor `24000 * 2 * 0.5` bytes (500 ms of
24 kHz 16-bit mono audio) checked by `_websocket_handler` before an
utterance may be finalized. (The separate `MIN_ACCUMULATION_TIME = 0.25`
constant is declared but this byte test is what the handler runs.) -/
def MIN_BYTES_FLOOR : ℕ := 24000

/-- Sum of the sizes of the buffered chunks: `sum(len(chunk) for chunk in
audio_buffer)`. -/
def totalBytes (buf : List (List ℕ)) : ℕ := (buf.map List.length).sum

/-- State of `_websocket_handler`'s loop-local variables:
`greeting_start_time`, whether `greeting_task` is still set,
`greeting_audio_finished_at`, the `audio_buffer` list of decoded chunks
(oldest first), `last_speech_time`, `current_response_task` (modelled as
`some done?` when a task object exists), the number of times
`current_response_task.cancel()` was actually invoked, and the audio
payloads handed to `_process_utterance`, in order. -/
structure MainState where
  greetingStart : Option ℚ
  greetingActive : Bool
  greetingAudioFinishedAt : Option ℚ
  audioBuffer : List (List ℕ)
  lastSpeechTime : ℚ
  currentResponseDone : Option Bool
  cancels : ℕ
  transcriptions : List (List ℕ)
  deriving Repr, DecidableEq

/-- Inbound client messages relevant to the handler: an
`input_audio_buffer.speech_started` signal, or an
`input_audio_buffer.append` carrying the decoded audio bytes. Each
message records the wall-clock time at which it is handled, and appends
also record the observed value of `greeting_task.done()` at that moment
(the greeting runs as a background task). -/
inductive InMsg where
  | speechStarted (t : ℚ)
  | audioAppend (t : ℚ) (greetingDone : Bool) (audio : List ℕ)
  deriving Repr, DecidableEq

/-- Audio-accumulation part of the handler (main.py lines 719-758): on a
non-empty decoded payload, set `last_speech_time` when the buffer was
empty, append the chunk, skip below the 500 ms byte floor, and otherwise
finalize when `silence_duration >= SPEECH_TIMEOUT`, handing the joined
buffer to `_process_utterance` and resetting the accumulation. -/
def acceptAudio (s : MainState) (t : ℚ) (audio : List ℕ) : MainState :=
  if audio = [] then s
  else
    let ts := if s.audioBuffer = [] then t else s.lastSpeechTime
    let buf := s.audioBuffer ++ [audio]
    let total := totalBytes buf
    if total < MIN_BYTES_FLOOR then
      { s with audioBuffer := buf, lastSpeechTime := ts }
    else
      -- silence_duration = current_time - last_speech_time
      if SPEECH_TIMEOUT ≤ t - ts ∧ 0 < total then
        { s with audioBuffer := [], lastSpeechTime := 0,
                 transcriptions := s.transcriptions ++ [buf.flatten] }
      else
        { s with audioBuffer := buf, lastSpeechTime := ts }

/-- One loop iteration of `_websocket_handler` on an inbound message.
On `speech_started`, the task is cancelled only when a not-yet-done task
object exists. On an audio append, the greeting hold-off (lines 683-711)
may ignore the chunk, or — once `greeting_task.done()` and 15 s have
elapsed since `greeting_start_time` — drop the greeting task, clear the
buffer, and fall through to process this same message. -/
def stepMain (s : MainState) : InMsg → MainState
  | .speechStarted _ =>
      match s.currentResponseDone with
      | some false => { s with cancels := s.cancels + 1 }
      | _ => s
  | .audioAppend t done audio =>
      if s.greetingActive ∧ done = false then s
      else if s.greetingActive ∧ done = true ∧ s.greetingAudioFinishedAt = none then
        let elapsed := match s.greetingStart with
          | some t0 => t - t0
          | none => 0
        if elapsed < GREETING_HOLD then s
        else
          acceptAudio
            { s with greetingActive := false,
                     greetingAudioFinishedAt := some t,
                     audioBuffer := [], lastSpeechTime := 0 } t audio
      else acceptAudio s t audio

/-- Initial handler state for a session; `g = some t0` when a greeting
task was created at time `t0` (the `user_info` path), `g = none` when no
greeting is sent. -/
def initMain (g : Option ℚ) : MainState :=
  { greetingStart := g, greetingActive := g.isSome,
    greetingAudioFinishedAt := none, audioBuffer := [], lastSpeechTime := 0,
    currentResponseDone := none, cancels := 0, transcriptions := [] }

/-- Run the handler from a given state over a message sequence. -/
def runFrom (s : MainState) (msgs : List InMsg) : MainState :=
  msgs.foldl stepMain s

/-- Run the handler from the initial state. -/
def runMain (g : Option ℚ) (msgs : List InMsg) : MainState :=
  runFrom (initMain g) msgs

/-- Decoded payloads of the non-empty audio appends of a message list, in
order. -/
def appendPayloads : List InMsg → List (List ℕ)
  | [] => []
  | .speechStarted _ :: ms => appendPayloads ms
  | .audioAppend _ _ c :: ms =>
      if c = [] then appendPayloads ms else c :: appendPayloads ms

/-- Outbound events of `_process_utterance` (the `ws.send_json` calls):
`user.transcript`, `response.text`, `response.audio.delta`,
`response.audio.done`, `session.close`. -/
inductive OutEvent where
  | userTranscript (text : String)
  | responseText (text : String)
  | audioDelta (audio : String)
  | audioDone
  | sessionClose
  deriving Repr, DecidableEq

/-- Python's `not text or not text.strip()` test: true exactly when every
character of the string is whitespace (an empty string trivially is). -/
def strippedEmpty (s : String) : Bool := s.data.all Char.isWhitespace

/-- Observable event/return behaviour of `_process_utterance`, with the
collaborator results as parameters: `transcript` is the stripped Whisper
result, `replyText` the agent reply, and `tts` the synthesized audio
(`none` when synthesis failed or timed out, since `_synthesize_speech`
returns None on error and the TimeoutError branch sets it to None).
An empty transcript returns False with nothing sent; an empty/whitespace
reply closes the session; otherwise the reply text is always sent, audio
events are sent only when synthesis produced data, and the handler
returns True. -/
def processUtterance (transcript : String) (replyText : String)
    (tts : Option String) : List OutEvent × Bool :=
  if transcript = "" then ([], false)
  else if strippedEmpty replyText then
    ([.userTranscript transcript, .sessionClose], true)
  else
    match tts with
    | some a =>
        ([.userTranscript transcript, .responseText replyText,
          .audioDelta a, .audioDone], true)
    | none =>
        ([.userTranscript transcript, .responseText replyText], true)

end MainWs

namespace Relay

/-- Time recorded for the most recent batch send, or the initial value 0
of `last_audio_send_time` when nothing has been sent yet. -/
def lastTimeOf (sends : List (ℚ × List ℕ)) : ℚ :=
  match sends.getLast? with
  | some p => p.1
  | none => 0

/-- Invariant of reachable relay states: the deque never exceeds its
capacity, `last_audio_send_time` is the time of the most recent batch
send, consecutive batch sends are paced or full, and every batch respects
the size bound. -/
def RelayInv (s : RelayState) : Prop :=
  s.buffer.length ≤ MAX_AUDIO_BATCH_SIZE ∧
  s.lastSendTime = lastTimeOf s.sends ∧
  List.Chain' pacedOrFull s.sends ∧
  ∀ b ∈ s.sends, b.2.length ≤ MAX_AUDIO_BATCH_SIZE

/-- Invariant of runs in which the pending counter never becomes
positive: the deque stays strictly below capacity and nothing is ever
evicted. -/
def NoDeferInv (s : RelayState) : Prop :=
  s.pending = 0 ∧ s.buffer.length < MAX_AUDIO_BATCH_SIZE ∧ s.evicted = []

/-- Ten audio messages all arriving within the same pacing window. -/
def evsC3 : List RelayEvent :=
  [.audio 0 1, .audio 0 2, .audio 0 3, .audio 0 4, .audio 0 5,
   .audio 0 6, .audio 0 7, .audio 0 8, .audio 0 9, .audio 0 10]

/-- One speech-started event (making a transcription pending) followed by
six audio messages. -/
def evsC9 : List RelayEvent :=
  [.speechStarted, .audio 0 1, .audio 0 2, .audio 0 3, .audio 0 4,
   .audio 0 5, .audio 0 6]

end Relay

namespace MainWs

/-- A 24000-byte audio chunk: exactly the handler's accumulation floor
(500 ms at 24 kHz, 16-bit mono). -/
def bigChunk : List ℕ := List.replicate 24000 0

/-- Two sub-floor chunks whose arrival times are 2 s apart (trailing
silence far beyond the 1 s threshold, accumulation far below the floor). -/
def msgsC1 : List InMsg := [.audioAppend 0 true [7], .audioAppend 2 true [8]]

/-- A floor-sized chunk at t = 0 followed by a further chunk at t = 1/2:
continuous speech-rate arrivals half a second apart. -/
def msgsC4 : List InMsg :=
  [.audioAppend 0 true bigChunk, .audioAppend (1/2) true [0]]

end MainWs

namespace Relay

theorem dequePush_of_lt (buf : List ℕ) (m : ℕ) (h : buf.length < MAX_AUDIO_BATCH_SIZE) :
    dequePush buf m = (buf ++ [m], []) := by
  unfold dequePush
  rw [if_neg (by omega)]

theorem dequePush_of_full (buf : List ℕ) (m : ℕ) (h : MAX_AUDIO_BATCH_SIZE ≤ buf.length) :
    dequePush buf m = (buf.tail ++ [m], buf.take 1) := by
  unfold dequePush
  rw [if_pos h]

theorem dequePush_length_le (buf : List ℕ) (m : ℕ) (h : buf.length ≤ MAX_AUDIO_BATCH_SIZE) :
    (dequePush buf m).1.length ≤ MAX_AUDIO_BATCH_SIZE := by
  unfold dequePush
  split
  next hfull =>
    simp only [List.length_append, List.length_tail, List.length_cons, List.length_nil]
    simp only [MAX_AUDIO_BATCH_SIZE] at h hfull ⊢
    omega
  next hlt =>
    simp only [List.length_append, List.length_cons, List.length_nil]
    simp only [MAX_AUDIO_BATCH_SIZE] at h hlt ⊢
    omega

theorem handleAudio_pending (s : RelayState) (t : ℚ) (m : ℕ) (h : s.pending ≠ 0) :
    handleAudio s t m =
      { s with buffer := (dequePush s.buffer m).1,
               evicted := s.evicted ++ (dequePush s.buffer m).2,
               throttled := s.throttled + 1 } := by
  have hss : ¬((AUDIO_SEND_INTERVAL ≤ t - s.lastSendTime ∨
      MAX_AUDIO_BATCH_SIZE ≤ (dequePush s.buffer m).1.length) ∧ s.pending = 0) :=
    fun hc => h hc.2
  simp only [handleAudio]
  rw [if_neg (fun hc => hss hc.1), if_neg hss]

theorem stepRelay_pending_sub (s : RelayState) :
    (stepRelay s .transcriptionDone).pending = s.pending - 1 := by
  simp only [stepRelay]
  split
  next h => rfl
  next h => omega

/-- Claim C7: while the per-client pending-transcription counter is
non-zero, an inbound audio message is queued (deque append) but no batch
send occurs and the send clock is untouched, regardless of the elapsed
pacing interval or the buffer size; the counter is incremented by each
speech-started event and decremented (floored at zero) by each
transcription completed/failed event. -/
theorem pending_defers_sends :
    (∀ (s : RelayState) (t : ℚ) (m : ℕ), 0 < s.pending →
        (stepRelay s (.audio t m)).sends = s.sends ∧
        (stepRelay s (.audio t m)).lastSendTime = s.lastSendTime ∧
        (stepRelay s (.audio t m)).buffer = (dequePush s.buffer m).1 ∧
        (stepRelay s (.audio t m)).pending = s.pending) ∧
    (∀ s : RelayState, (stepRelay s .speechStarted).pending = s.pending + 1) ∧
    (∀ s : RelayState, (stepRelay s .transcriptionDone).pending = s.pending - 1) := by
  refine ⟨?_, fun s => rfl, stepRelay_pending_sub⟩
  intro s t m h
  have hstep : stepRelay s (.audio t m) = handleAudio s t m := rfl
  rw [hstep, handleAudio_pending s t m (Nat.pos_iff_ne_zero.mp h)]
  exact ⟨rfl, rfl, rfl, rfl⟩

/-- Witness for C7 at a concrete state with one pending transcription:
the arriving audio message is queued and nothing is sent. -/
theorem pending_defers_sends_witness :
    (stepRelay ⟨[1, 2], 0, 1, [], 0, []⟩ (.audio 9 3)).sends = [] ∧
    (stepRelay ⟨[1, 2], 0, 1, [], 0, []⟩ (.audio 9 3)).buffer = [1, 2, 3] := by
  have h := pending_defers_sends.1 ⟨[1, 2], 0, 1, [], 0, []⟩ 9 3 (by decide)
  refine ⟨h.1, ?_⟩
  rw [h.2.2.1]
  rw [dequePush_of_lt _ _ (by decide)]
  rfl

/-- Claim C9 counterexample: after one speech-started event defers sends,
a sixth queued audio message makes the capacity-5 deque silently evict
the oldest queued chunk — chunk 1 is dropped without ever being sent. -/
theorem chunk_evicted_unobserved :
    (runRelay evsC9).evicted = [1] ∧ (runRelay evsC9).sends = [] := by
  have e0 : stepRelay initRelay .speechStarted = ⟨[], 0, 1, [], 0, []⟩ := rfl
  have e1 : stepRelay ⟨[], 0, 1, [], 0, []⟩ (.audio 0 1) = ⟨[1], 0, 1, [], 1, []⟩ := by
    norm_num [stepRelay, handleAudio, dequePush, AUDIO_SEND_INTERVAL, MAX_AUDIO_BATCH_SIZE]
  have e2 : stepRelay ⟨[1], 0, 1, [], 1, []⟩ (.audio 0 2) = ⟨[1, 2], 0, 1, [], 2, []⟩ := by
    norm_num [stepRelay, handleAudio, dequePush, AUDIO_SEND_INTERVAL, MAX_AUDIO_BATCH_SIZE]
  have e3 : stepRelay ⟨[1, 2], 0, 1, [], 2, []⟩ (.audio 0 3) =
      ⟨[1, 2, 3], 0, 1, [], 3, []⟩ := by
    norm_num [stepRelay, handleAudio, dequePush, AUDIO_SEND_INTERVAL, MAX_AUDIO_BATCH_SIZE]
  have e4 : stepRelay ⟨[1, 2, 3], 0, 1, [], 3, []⟩ (.audio 0 4) =
      ⟨[1, 2, 3, 4], 0, 1, [], 4, []⟩ := by
    norm_num [stepRelay, handleAudio, dequePush, AUDIO_SEND_INTERVAL, MAX_AUDIO_BATCH_SIZE]
  have e5 : stepRelay ⟨[1, 2, 3, 4], 0, 1, [], 4, []⟩ (.audio 0 5) =
      ⟨[1, 2, 3, 4, 5], 0, 1, [], 5, []⟩ := by
    norm_num [stepRelay, handleAudio, dequePush, AUDIO_SEND_INTERVAL, MAX_AUDIO_BATCH_SIZE]
  have e6 : stepRelay ⟨[1, 2, 3, 4, 5], 0, 1, [], 5, []⟩ (.audio 0 6) =
      ⟨[2, 3, 4, 5, 6], 0, 1, [], 6, [1]⟩ := by
    norm_num [stepRelay, handleAudio, dequePush, AUDIO_SEND_INTERVAL, MAX_AUDIO_BATCH_SIZE]
  have hrun : runRelay evsC9 = ⟨[2, 3, 4, 5, 6], 0, 1, [], 6, [1]⟩ := by
    simp only [runRelay, evsC9, List.foldl_cons, List.foldl_nil, e0, e1, e2, e3, e4, e5, e6]
  rw [hrun]
  exact ⟨rfl, rfl⟩

theorem noDeferInv_step (s : RelayState) (e : RelayEvent)
    (he : e ≠ RelayEvent.speechStarted) (h : NoDeferInv s) :
    NoDeferInv (stepRelay s e) := by
  obtain ⟨hp, hb, hev⟩ := h
  cases e with
  | speechStarted => exact absurd rfl he
  | transcriptionDone =>
      refine ⟨?_, hb, hev⟩
      rw [stepRelay_pending_sub, hp]
  | audio t m =>
    have hpush := dequePush_of_lt s.buffer m hb
    have hstep : stepRelay s (.audio t m) = handleAudio s t m := rfl
    rw [hstep]
    simp only [handleAudio, hpush]
    by_cases hss : (AUDIO_SEND_INTERVAL ≤ t - s.lastSendTime ∨
        MAX_AUDIO_BATCH_SIZE ≤ (s.buffer ++ [m]).length) ∧ s.pending = 0
    · rw [if_pos ⟨hss, by simp⟩]
      refine ⟨hp, by simp [MAX_AUDIO_BATCH_SIZE], by simp [hev]⟩
    · rw [if_neg (fun hc => hss hc.1)]
      refine ⟨hp, ?_, by simp [hev]⟩
      have hlen : ¬(MAX_AUDIO_BATCH_SIZE ≤ (s.buffer ++ [m]).length) :=
        fun hl => hss ⟨Or.inr hl, hp⟩
      simpa using Nat.lt_of_not_le hlen

theorem noDeferInv_run (events : List RelayEvent) :
    ∀ s : RelayState, (∀ e ∈ events, e ≠ RelayEvent.speechStarted) →
      NoDeferInv s → NoDeferInv (events.foldl stepRelay s) := by
  induction events with
  | nil => intro s _ h; exact h
  | cons e es ih =>
      intro s hall h
      rw [List.foldl_cons]
      exact ih _ (fun x hx => hall x (List.mem_cons_of_mem e hx))
        (noDeferInv_step s e (hall e (List.mem_cons_self e es)) h)

/-- Claim C9 (amended): as long as the pending-acknowledgment counter
never becomes positive, no queued chunk is ever evicted (every chunk is
flushed before the deque reaches capacity); but whenever the deque is at
its capacity of MAX_AUDIO_BATCH_SIZE — which deferral can cause — the
next audio message silently evicts the oldest queued chunk. -/
theorem no_eviction_only_without_deferral :
    (∀ events : List RelayEvent,
        (∀ e ∈ events, e ≠ RelayEvent.speechStarted) →
        (runRelay events).evicted = []) ∧
    (∀ (s : RelayState) (t : ℚ) (m : ℕ),
        s.buffer.length = MAX_AUDIO_BATCH_SIZE →
        (stepRelay s (.audio t m)).evicted = s.evicted ++ s.buffer.take 1) := by
  constructor
  · intro events hall
    exact (noDeferInv_run events initRelay hall ⟨rfl, by decide, rfl⟩).2.2
  · intro s t m hfull
    have hpush := dequePush_of_full s.buffer m (le_of_eq hfull.symm)
    have hstep : stepRelay s (.audio t m) = handleAudio s t m := rfl
    rw [hstep]
    simp only [handleAudio, hpush]
    split
    · rfl
    · rfl

/-- Witness for the amended C9: a run without deferral evicts nothing,
and a full deque under deferral evicts its oldest entry. -/
theorem no_eviction_witness :
    (runRelay [.audio 0 1]).evicted = [] ∧
    (stepRelay ⟨[1, 2, 3, 4, 5], 0, 1, [], 0, []⟩ (.audio 0 6)).evicted = [1] := by
  constructor
  · refine no_eviction_only_without_deferral.1 [.audio 0 1] ?_
    intro e he
    simp only [List.mem_singleton] at he
    rw [he]
    intro hcontra
    exact RelayEvent.noConfusion hcontra
  · have h := no_eviction_only_without_deferral.2 ⟨[1, 2, 3, 4, 5], 0, 1, [], 0, []⟩ 0 6
      (by decide)
    rw [h]
    rfl

/-- Claim C3 counterexample: ten audio messages arriving inside one
pacing window produce two batch flushes (each triggered by the buffer
reaching MAX_AUDIO_BATCH_SIZE) whose start times are 0 seconds apart —
strictly less than the pacing interval. -/
theorem consecutive_batches_within_interval :
    (runRelay evsC3).sends = [(0, [1, 2, 3, 4, 5]), (0, [6, 7, 8, 9, 10])] ∧
    ¬(AUDIO_SEND_INTERVAL ≤ (0 : ℚ) - 0) := by
  have e1 : stepRelay initRelay (.audio 0 1) = ⟨[1], 0, 0, [], 1, []⟩ := by
    norm_num [stepRelay, handleAudio, dequePush, initRelay,
      AUDIO_SEND_INTERVAL, MAX_AUDIO_BATCH_SIZE]
  have e2 : stepRelay ⟨[1], 0, 0, [], 1, []⟩ (.audio 0 2) = ⟨[1, 2], 0, 0, [], 2, []⟩ := by
    norm_num [stepRelay, handleAudio, dequePush, AUDIO_SEND_INTERVAL, MAX_AUDIO_BATCH_SIZE]
  have e3 : stepRelay ⟨[1, 2], 0, 0, [], 2, []⟩ (.audio 0 3) =
      ⟨[1, 2, 3], 0, 0, [], 3, []⟩ := by
    norm_num [stepRelay, handleAudio, dequePush, AUDIO_SEND_INTERVAL, MAX_AUDIO_BATCH_SIZE]
  have e4 : stepRelay ⟨[1, 2, 3], 0, 0, [], 3, []⟩ (.audio 0 4) =
      ⟨[1, 2, 3, 4], 0, 0, [], 4, []⟩ := by
    norm_num [stepRelay, handleAudio, dequePush, AUDIO_SEND_INTERVAL, MAX_AUDIO_BATCH_SIZE]
  have e5 : stepRelay ⟨[1, 2, 3, 4], 0, 0, [], 4, []⟩ (.audio 0 5) =
      ⟨[], 0, 0, [(0, [1, 2, 3, 4, 5])], 4, []⟩ := by
    norm_num [stepRelay, handleAudio, dequePush, AUDIO_SEND_INTERVAL, MAX_AUDIO_BATCH_SIZE,
      List.cons_ne_nil]
  have e6 : stepRelay ⟨[], 0, 0, [(0, [1, 2, 3, 4, 5])], 4, []⟩ (.audio 0 6) =
      ⟨[6], 0, 0, [(0, [1, 2, 3, 4, 5])], 5, []⟩ := by
    norm_num [stepRelay, handleAudio, dequePush, AUDIO_SEND_INTERVAL, MAX_AUDIO_BATCH_SIZE]
  have e7 : stepRelay ⟨[6], 0, 0, [(0, [1, 2, 3, 4, 5])], 5, []⟩ (.audio 0 7) =
      ⟨[6, 7], 0, 0, [(0, [1, 2, 3, 4, 5])], 6, []⟩ := by
    norm_num [stepRelay, handleAudio, dequePush, AUDIO_SEND_INTERVAL, MAX_AUDIO_BATCH_SIZE]
  have e8 : stepRelay ⟨[6, 7], 0, 0, [(0, [1, 2, 3, 4, 5])], 6, []⟩ (.audio 0 8) =
      ⟨[6, 7, 8], 0, 0, [(0, [1, 2, 3, 4, 5])], 7, []⟩ := by
    norm_num [stepRelay, handleAudio, dequePush, AUDIO_SEND_INTERVAL, MAX_AUDIO_BATCH_SIZE]
  have e9 : stepRelay ⟨[6, 7, 8], 0, 0, [(0, [1, 2, 3, 4, 5])], 7, []⟩ (.audio 0 9) =
      ⟨[6, 7, 8, 9], 0, 0, [(0, [1, 2, 3, 4, 5])], 8, []⟩ := by
    norm_num [stepRelay, handleAudio, dequePush, AUDIO_SEND_INTERVAL, MAX_AUDIO_BATCH_SIZE]
  have e10 : stepRelay ⟨[6, 7, 8, 9], 0, 0, [(0, [1, 2, 3, 4, 5])], 8, []⟩ (.audio 0 10) =
      ⟨[], 0, 0, [(0, [1, 2, 3, 4, 5]), (0, [6, 7, 8, 9, 10])], 8, []⟩ := by
    norm_num [stepRelay, handleAudio, dequePush, AUDIO_SEND_INTERVAL, MAX_AUDIO_BATCH_SIZE,
      List.cons_ne_nil]
  have hrun : runRelay evsC3 =
      ⟨[], 0, 0, [(0, [1, 2, 3, 4, 5]), (0, [6, 7, 8, 9, 10])], 8, []⟩ := by
    simp only [runRelay, evsC3, List.foldl_cons, List.foldl_nil,
      e1, e2, e3, e4, e5, e6, e7, e8, e9, e10]
  refine ⟨by rw [hrun], ?_⟩
  norm_num [AUDIO_SEND_INTERVAL]

theorem relayInv_step (s : RelayState) (e : RelayEvent) (h : RelayInv s) :
    RelayInv (stepRelay s e) := by
  obtain ⟨hlen, hlast, hchain, hball⟩ := h
  cases e with
  | speechStarted => exact ⟨hlen, hlast, hchain, hball⟩
  | transcriptionDone => exact ⟨hlen, hlast, hchain, hball⟩
  | audio t m =>
    have hstep : stepRelay s (.audio t m) = handleAudio s t m := rfl
    have hpushlen := dequePush_length_le s.buffer m hlen
    rw [hstep]
    simp only [handleAudio]
    by_cases hcond : ((AUDIO_SEND_INTERVAL ≤ t - s.lastSendTime ∨
        MAX_AUDIO_BATCH_SIZE ≤ (dequePush s.buffer m).1.length) ∧ s.pending = 0) ∧
        (dequePush s.buffer m).1 ≠ []
    · rw [if_pos hcond]
      obtain ⟨⟨hdisj, _⟩, _⟩ := hcond
      have hnewlen : (dequePush s.buffer m).1.length ≤ MAX_AUDIO_BATCH_SIZE := hpushlen
      have hpaced : ∀ x ∈ s.sends.getLast?, pacedOrFull x (t, (dequePush s.buffer m).1) := by
        intro x hx
        rcases hdisj with hint | hfull
        · left
          have : s.lastSendTime = x.1 := by
            rw [hlast, lastTimeOf, hx]
          rw [← this]
          exact hint
        · right
          exact le_antisymm hnewlen hfull
      refine ⟨by simp [MAX_AUDIO_BATCH_SIZE], ?_, ?_, ?_⟩
      · show t = lastTimeOf (s.sends ++ [(t, (dequePush s.buffer m).1)])
        rw [lastTimeOf, List.getLast?_concat]
      · rw [List.chain'_append]
        refine ⟨hchain, List.chain'_singleton _, ?_⟩
        intro x hx y hy
        simp only [List.head?_cons, Option.mem_def, Option.some.injEq] at hy
        rw [← hy]
        exact hpaced x hx
      · intro b hb
        rcases List.mem_append.mp hb with hb | hb
        · exact hball b hb
        · simp only [List.mem_singleton] at hb
          rw [hb]
          exact hnewlen
    · rw [if_neg hcond]
      exact ⟨hpushlen, hlast, hchain, hball⟩

theorem relayInv_fold (events : List RelayEvent) :
    ∀ s : RelayState, RelayInv s → RelayInv (events.foldl stepRelay s) := by
  induction events with
  | nil => intro s h; exact h
  | cons e es ih =>
      intro s h
      rw [List.foldl_cons]
      exact ih _ (relayInv_step s e h)

theorem relayInv_run (events : List RelayEvent) : RelayInv (runRelay events) := by
  rw [runRelay]
  refine relayInv_fold events initRelay ⟨by decide, rfl, List.chain'_nil, ?_⟩
  intro b hb
  simp [initRelay] at hb

/-- Claim C3 (amended): every batch flush transmits at most
MAX_AUDIO_BATCH_SIZE messages, and any two consecutive batch sends are
either at least AUDIO_SEND_INTERVAL apart or the later one was triggered
by the buffer reaching MAX_AUDIO_BATCH_SIZE (a full batch), in which case
it may start sooner. -/
theorem batches_bounded_and_paced_or_full :
    ∀ events : List RelayEvent,
      (∀ b ∈ (runRelay events).sends, b.2.length ≤ MAX_AUDIO_BATCH_SIZE) ∧
      List.Chain' pacedOrFull (runRelay events).sends := by
  intro events
  have h := relayInv_run events
  exact ⟨h.2.2.2, h.2.2.1⟩

/-- Witness for the amended C3 on a concrete run with one send. -/
theorem batches_bounded_witness :
    (runRelay [.audio 2 1]).sends = [((2 : ℚ), [1])] ∧ (1 : ℕ) ≤ MAX_AUDIO_BATCH_SIZE := by
  have hrun : runRelay [.audio 2 1] = ⟨[], 2, 0, [((2 : ℚ), [1])], 0, []⟩ := by
    norm_num [runRelay, stepRelay, handleAudio, dequePush, initRelay,
      AUDIO_SEND_INTERVAL, MAX_AUDIO_BATCH_SIZE, List.cons_ne_nil]
  have h := (batches_bounded_and_paced_or_full [.audio 2 1]).1 ((2 : ℚ), [1])
    (by rw [hrun]; exact List.mem_singleton_self _)
  exact ⟨by rw [hrun], h⟩

theorem swr_ok (o : ℕ → SendOutcome) (k : ℕ) (h : o k = SendOutcome.ok) :
    sendWithRetry o k = ⟨true, false, 1, []⟩ := by
  conv_lhs => rw [sendWithRetry]
  rw [h]

theorem swr_other (o : ℕ → SendOutcome) (k : ℕ) (h : o k = SendOutcome.errOther) :
    sendWithRetry o k = ⟨false, true, 1, []⟩ := by
  conv_lhs => rw [sendWithRetry]
  rw [h]

theorem swr_retry429 (o : ℕ → SendOutcome) (k : ℕ) (hk : k < MAX_RETRIES)
    (h : o k = SendOutcome.err429) :
    sendWithRetry o k =
      { sendWithRetry o (k + 1) with
        attempts := (sendWithRetry o (k + 1)).attempts + 1,
        delays := RETRY_DELAY_429 :: (sendWithRetry o (k + 1)).delays } := by
  conv_lhs => rw [sendWithRetry]
  rw [h, dif_pos hk]

theorem swr_drop429 (o : ℕ → SendOutcome) (k : ℕ) (hk : ¬(k < MAX_RETRIES))
    (h : o k = SendOutcome.err429) :
    sendWithRetry o k = ⟨false, true, 1, []⟩ := by
  conv_lhs => rw [sendWithRetry]
  rw [h, dif_neg hk]

theorem swr_bound3 (o : ℕ → SendOutcome) :
    (sendWithRetry o 3).attempts ≤ 1 ∧
      ∀ d ∈ (sendWithRetry o 3).delays, d = RETRY_DELAY_429 := by
  rcases h : o 3 with _ | _ | _
  · rw [swr_ok o 3 h]
    exact ⟨le_refl 1, fun d hd => by simp at hd⟩
  · rw [swr_drop429 o 3 (by decide) h]
    exact ⟨le_refl 1, fun d hd => by simp at hd⟩
  · rw [swr_other o 3 h]
    exact ⟨le_refl 1, fun d hd => by simp at hd⟩

theorem swr_bound2 (o : ℕ → SendOutcome) :
    (sendWithRetry o 2).attempts ≤ 2 ∧
      ∀ d ∈ (sendWithRetry o 2).delays, d = RETRY_DELAY_429 := by
  rcases h : o 2 with _ | _ | _
  · rw [swr_ok o 2 h]
    exact ⟨by decide, fun d hd => by simp at hd⟩
  · rw [swr_retry429 o 2 (by decide) h, show (2 + 1) = 3 from rfl]
    constructor
    · show (sendWithRetry o 3).attempts + 1 ≤ 2
      exact Nat.add_le_add_right (swr_bound3 o).1 1
    · intro d hd
      have hd' : d ∈ RETRY_DELAY_429 :: (sendWithRetry o 3).delays := hd
      rcases List.mem_cons.mp hd' with h1 | h1
      · exact h1
      · exact (swr_bound3 o).2 d h1
  · rw [swr_other o 2 h]
    exact ⟨by decide, fun d hd => by simp at hd⟩

theorem swr_bound1 (o : ℕ → SendOutcome) :
    (sendWithRetry o 1).attempts ≤ 3 ∧
      ∀ d ∈ (sendWithRetry o 1).delays, d = RETRY_DELAY_429 := by
  rcases h : o 1 with _ | _ | _
  · rw [swr_ok o 1 h]
    exact ⟨by decide, fun d hd => by simp at hd⟩
  · rw [swr_retry429 o 1 (by decide) h, show (1 + 1) = 2 from rfl]
    constructor
    · show (sendWithRetry o 2).attempts + 1 ≤ 3
      exact Nat.add_le_add_right (swr_bound2 o).1 1
    · intro d hd
      have hd' : d ∈ RETRY_DELAY_429 :: (sendWithRetry o 2).delays := hd
      rcases List.mem_cons.mp hd' with h1 | h1
      · exact h1
      · exact (swr_bound2 o).2 d h1
  · rw [swr_other o 1 h]
    exact ⟨by decide, fun d hd => by simp at hd⟩

/-- Claim C6: a throttled send is retried after a fixed RETRY_DELAY_429
backoff, at most MAX_RETRIES times (at most MAX_RETRIES + 1 attempts in
total, every backoff sleep equal to RETRY_DELAY_429); when every attempt
keeps returning 429 the message is dropped and the exception is re-raised
to the caller after exactly MAX_RETRIES retries with three 3-second
backoffs. -/
theorem retry429_bounded_backoff :
    ∀ o : ℕ → SendOutcome,
      (sendWithRetry o 0).attempts ≤ MAX_RETRIES + 1 ∧
      (∀ d ∈ (sendWithRetry o 0).delays, d = RETRY_DELAY_429) ∧
      ((∀ k, o k = SendOutcome.err429) →
        sendWithRetry o 0 =
          ⟨false, true, MAX_RETRIES + 1, [RETRY_DELAY_429, RETRY_DELAY_429, RETRY_DELAY_429]⟩) := by
  intro o
  have hb : (sendWithRetry o 0).attempts ≤ 4 ∧
      ∀ d ∈ (sendWithRetry o 0).delays, d = RETRY_DELAY_429 := by
    rcases h : o 0 with _ | _ | _
    · rw [swr_ok o 0 h]
      exact ⟨by decide, fun d hd => by simp at hd⟩
    · rw [swr_retry429 o 0 (by decide) h, show (0 + 1) = 1 from rfl]
      constructor
      · show (sendWithRetry o 1).attempts + 1 ≤ 4
        exact Nat.add_le_add_right (swr_bound1 o).1 1
      · intro d hd
        have hd' : d ∈ RETRY_DELAY_429 :: (sendWithRetry o 1).delays := hd
        rcases List.mem_cons.mp hd' with h1 | h1
        · exact h1
        · exact (swr_bound1 o).2 d h1
    · rw [swr_other o 0 h]
      exact ⟨by decide, fun d hd => by simp at hd⟩
  refine ⟨hb.1, hb.2, ?_⟩
  intro hall
  have e3 : sendWithRetry o 3 = ⟨false, true, 1, []⟩ :=
    swr_drop429 o 3 (by decide) (hall 3)
  have e2 : sendWithRetry o 2 = ⟨false, true, 2, [RETRY_DELAY_429]⟩ := by
    rw [swr_retry429 o 2 (by decide) (hall 2), show (2 + 1) = 3 from rfl, e3]
  have e1 : sendWithRetry o 1 = ⟨false, true, 3, [RETRY_DELAY_429, RETRY_DELAY_429]⟩ := by
    rw [swr_retry429 o 1 (by decide) (hall 1), show (1 + 1) = 2 from rfl, e2]
  rw [swr_retry429 o 0 (by decide) (hall 0), show (0 + 1) = 1 from rfl, e1]
  rfl

/-- Witness for C6: with an upstream that always answers 429, the message
is dropped with the error re-raised after 4 attempts (1 + MAX_RETRIES)
and three 3-second backoffs. -/
theorem retry429_bounded_backoff_witness :
    sendWithRetry (fun _ => SendOutcome.err429) 0 =
      ⟨false, true, MAX_RETRIES + 1, [RETRY_DELAY_429, RETRY_DELAY_429, RETRY_DELAY_429]⟩ :=
  (retry429_bounded_backoff (fun _ => SendOutcome.err429)).2.2 (fun _ => rfl)

end Relay

namespace MainWs

theorem totalBytes_append_single (l : List (List ℕ)) (c : List ℕ) :
    totalBytes (l ++ [c]) = totalBytes l + c.length := by
  simp [totalBytes]

theorem totalBytes_cons (c : List ℕ) (l : List (List ℕ)) :
    totalBytes (c :: l) = c.length + totalBytes l := by
  simp [totalBytes]

theorem runFrom_cons (s : MainState) (m : InMsg) (ms : List InMsg) :
    runFrom s (m :: ms) = runFrom (stepMain s m) ms := rfl

theorem acceptAudio_nil (s : MainState) (t : ℚ) : acceptAudio s t [] = s := by
  simp [acceptAudio]

theorem acceptAudio_fire (s : MainState) (t : ℚ) (c : List ℕ) (hc : c ≠ [])
    (hfloor : MIN_BYTES_FLOOR ≤ totalBytes (s.audioBuffer ++ [c]))
    (hsil : SPEECH_TIMEOUT ≤ t - (if s.audioBuffer = [] then t else s.lastSpeechTime)) :
    acceptAudio s t c =
      { s with audioBuffer := [], lastSpeechTime := 0,
               transcriptions := s.transcriptions ++ [(s.audioBuffer ++ [c]).flatten] } := by
  simp only [acceptAudio]
  rw [if_neg hc, if_neg (Nat.not_lt.mpr hfloor),
    if_pos ⟨hsil, Nat.lt_of_lt_of_le (by decide) hfloor⟩]

theorem acceptAudio_accum (s : MainState) (t : ℚ) (c : List ℕ) (hc : c ≠ [])
    (h : totalBytes (s.audioBuffer ++ [c]) < MIN_BYTES_FLOOR ∨
         ¬(SPEECH_TIMEOUT ≤ t - (if s.audioBuffer = [] then t else s.lastSpeechTime))) :
    acceptAudio s t c =
      { s with audioBuffer := s.audioBuffer ++ [c],
               lastSpeechTime := if s.audioBuffer = [] then t else s.lastSpeechTime } := by
  simp only [acceptAudio]
  rw [if_neg hc]
  by_cases hf : totalBytes (s.audioBuffer ++ [c]) < MIN_BYTES_FLOOR
  · rw [if_pos hf]
  · rcases h with h | h
    · exact absurd h hf
    · rw [if_neg hf, if_neg (fun hx => h hx.1)]

theorem acceptAudio_fields (s : MainState) (t : ℚ) (c : List ℕ) :
    (acceptAudio s t c).cancels = s.cancels ∧
    (acceptAudio s t c).currentResponseDone = s.currentResponseDone ∧
    (acceptAudio s t c).greetingActive = s.greetingActive ∧
    (acceptAudio s t c).greetingStart = s.greetingStart ∧
    (acceptAudio s t c).greetingAudioFinishedAt = s.greetingAudioFinishedAt := by
  simp only [acceptAudio]
  repeat' split
  all_goals exact ⟨rfl, rfl, rfl, rfl, rfl⟩

theorem stepMain_append_noGreeting (s : MainState) (t : ℚ) (d : Bool) (c : List ℕ)
    (hg : s.greetingActive = false) :
    stepMain s (.audioAppend t d c) = acceptAudio s t c := by
  simp [stepMain, hg]

theorem stepMain_speech_fields (s : MainState) (t : ℚ) :
    (stepMain s (.speechStarted t)).audioBuffer = s.audioBuffer ∧
    (stepMain s (.speechStarted t)).transcriptions = s.transcriptions ∧
    (stepMain s (.speechStarted t)).greetingActive = s.greetingActive ∧
    (stepMain s (.speechStarted t)).lastSpeechTime = s.lastSpeechTime := by
  cases hcr : s.currentResponseDone with
  | none => simp [stepMain, hcr]
  | some b => cases b <;> simp [stepMain, hcr]

theorem stepMain_no_cancel (s : MainState) (e : InMsg)
    (h : s.currentResponseDone = none) :
    (stepMain s e).cancels = s.cancels ∧
    (stepMain s e).currentResponseDone = none := by
  cases e with
  | speechStarted tt => simp [stepMain, h]
  | audioAppend t d c =>
      simp only [stepMain]
      split
      · exact ⟨rfl, h⟩
      · split
        · split
          · exact ⟨rfl, h⟩
          · have hfields := acceptAudio_fields
              { s with greetingActive := false, greetingAudioFinishedAt := some t,
                       audioBuffer := [], lastSpeechTime := 0 } t c
            exact ⟨hfields.1, by rw [hfields.2.1]; exact h⟩
        · have hfields := acceptAudio_fields s t c
          exact ⟨hfields.1, by rw [hfields.2.1]; exact h⟩

/-- Claim C2 (code evaluation): in `_websocket_handler` the variable
`current_response_task` is initialized to None and never assigned a task,
so the speech-started branch never invokes `.cancel()` — over every
possible inbound message sequence the number of cancellation-handle
invocations stays zero. -/
theorem cancel_handle_never_invoked :
    ∀ (g : Option ℚ) (msgs : List InMsg),
      (runMain g msgs).cancels = 0 ∧
      (runMain g msgs).currentResponseDone = none := by
  intro g msgs
  have key : ∀ (ms : List InMsg) (s : MainState), s.currentResponseDone = none →
      (runFrom s ms).cancels = s.cancels ∧
      (runFrom s ms).currentResponseDone = none := by
    intro ms
    induction ms with
    | nil => intro s h; exact ⟨rfl, h⟩
    | cons e es ih =>
        intro s h
        rw [runFrom_cons]
        have h1 := stepMain_no_cancel s e h
        have h2 := ih (stepMain s e) h1.2
        exact ⟨by rw [h2.1, h1.1], h2.2⟩
  have h := key msgs (initMain g) rfl
  exact ⟨h.1, h.2⟩

theorem run_below_floor (msgs : List InMsg) :
    ∀ s : MainState, s.greetingActive = false →
      totalBytes s.audioBuffer + totalBytes (appendPayloads msgs) < MIN_BYTES_FLOOR →
      (runFrom s msgs).transcriptions = s.transcriptions ∧
      (runFrom s msgs).audioBuffer = s.audioBuffer ++ appendPayloads msgs := by
  induction msgs with
  | nil =>
      intro s hg hlt
      exact ⟨rfl, by simp [runFrom, appendPayloads]⟩
  | cons m ms ih =>
      intro s hg hlt
      cases m with
      | speechStarted tt =>
          rw [runFrom_cons]
          have hf := stepMain_speech_fields s tt
          have hap : appendPayloads (InMsg.speechStarted tt :: ms) = appendPayloads ms := rfl
          rw [hap] at hlt ⊢
          have hrec := ih (stepMain s (.speechStarted tt))
            (by rw [hf.2.2.1]; exact hg)
            (by rw [hf.1]; exact hlt)
          rw [hrec.1, hrec.2, hf.1, hf.2.1]
          exact ⟨rfl, rfl⟩
      | audioAppend t d c =>
          rw [runFrom_cons, stepMain_append_noGreeting s t d c hg]
          by_cases hc : c = []
          · subst hc
            rw [acceptAudio_nil]
            have hap : appendPayloads (InMsg.audioAppend t d [] :: ms) = appendPayloads ms := by
              simp [appendPayloads]
            rw [hap] at hlt ⊢
            exact ih s hg hlt
          · have hap : appendPayloads (InMsg.audioAppend t d c :: ms) =
                c :: appendPayloads ms := by
              simp [appendPayloads, hc]
            rw [hap] at hlt ⊢
            rw [totalBytes_cons] at hlt
            have hfloor : totalBytes (s.audioBuffer ++ [c]) < MIN_BYTES_FLOOR := by
              rw [totalBytes_append_single]
              simp only [MIN_BYTES_FLOOR] at hlt ⊢
              omega
            rw [acceptAudio_accum s t c hc (Or.inl hfloor)]
            have hacc : totalBytes (s.audioBuffer ++ [c]) + totalBytes (appendPayloads ms) <
                MIN_BYTES_FLOOR := by
              rw [totalBytes_append_single]
              simp only [MIN_BYTES_FLOOR] at hlt ⊢
              omega
            have hrec := ih
              { s with
                  audioBuffer := s.audioBuffer ++ [c],
                  lastSpeechTime := if s.audioBuffer = [] then t else s.lastSpeechTime }
              hg hacc
            refine ⟨hrec.1, ?_⟩
            rw [hrec.2]
            show (s.audioBuffer ++ [c]) ++ appendPayloads ms =
              s.audioBuffer ++ (c :: appendPayloads ms)
            rw [List.append_assoc, List.singleton_append]

/-- Claim C1 (amended): when the accumulated audio never reaches the
500 ms byte floor, no transcription call is ever issued — but the
buffered audio is retained (the buffer keeps accumulating every chunk),
it is not discarded. -/
theorem below_floor_no_transcription_buffer_retained :
    ∀ msgs : List InMsg,
      totalBytes (appendPayloads msgs) < MIN_BYTES_FLOOR →
      (runMain none msgs).transcriptions = [] ∧
      (runMain none msgs).audioBuffer = appendPayloads msgs := by
  intro msgs h
  have hrun := run_below_floor msgs (initMain none) rfl (by
    show totalBytes [] + totalBytes (appendPayloads msgs) < MIN_BYTES_FLOOR
    simpa [totalBytes] using h)
  rw [runMain] at *
  exact ⟨hrun.1, by rw [hrun.2]; rfl⟩

/-- Claim C1 counterexample: two tiny chunks arriving 2 seconds apart —
trailing silence is far past the 1 s threshold while the byte floor was
never met. No transcription happens (as the claim says), but the buffer
still holds both chunks: the audio is retained, not discarded. -/
theorem below_floor_buffer_not_discarded :
    (runMain none msgsC1).transcriptions = [] ∧
    (runMain none msgsC1).audioBuffer = [[7], [8]] ∧
    SPEECH_TIMEOUT ≤ (2 : ℚ) - 0 := by
  have s1 : stepMain (initMain none) (.audioAppend 0 true [7]) =
      ⟨none, false, none, [[7]], 0, none, 0, []⟩ := by
    rw [stepMain_append_noGreeting _ _ _ _ rfl,
      acceptAudio_accum _ _ _ (by decide) (Or.inl (by decide))]
    rfl
  have s2 : stepMain ⟨none, false, none, [[7]], 0, none, 0, []⟩ (.audioAppend 2 true [8]) =
      ⟨none, false, none, [[7], [8]], 0, none, 0, []⟩ := by
    rw [stepMain_append_noGreeting _ _ _ _ rfl,
      acceptAudio_accum _ _ _ (by decide) (Or.inl (by decide))]
    rfl
  have hrun : runMain none msgsC1 = ⟨none, false, none, [[7], [8]], 0, none, 0, []⟩ := by
    simp only [runMain, runFrom, msgsC1, List.foldl_cons, List.foldl_nil, s1, s2]
  rw [hrun]
  refine ⟨rfl, rfl, ?_⟩
  norm_num [SPEECH_TIMEOUT]

/-- Witness for the amended C1 at a concrete sub-floor message list. -/
theorem below_floor_witness :
    (runMain none msgsC1).transcriptions = [] ∧
    (runMain none msgsC1).audioBuffer = appendPayloads msgsC1 :=
  below_floor_no_transcription_buffer_retained msgsC1 (by decide)

theorem bigChunk_length : bigChunk.length = 24000 := by
  rw [bigChunk]
  exact List.length_replicate 24000 0

theorem bigChunk_ne_nil : bigChunk ≠ [] := by
  intro hnil
  have h := bigChunk_length
  rw [hnil] at h
  simp at h

/-- Claim C4 counterexample: a floor-sized chunk at t = 0 and another
chunk at t = 1/2 leave `last_speech_time` at 0 (it is never reset to the
newest chunk's arrival time 1/2); a third chunk at t = 1 — only half a
second after the previous one — then finalizes the utterance, because the
handler measures "silence" from the utterance's first chunk, not from the
latest speech. -/
theorem silence_timer_not_reset_counterexample :
    (runMain none msgsC4).lastSpeechTime = 0 ∧
    ¬((runMain none msgsC4).lastSpeechTime = 1 / 2) ∧
    (runMain none (msgsC4 ++ [.audioAppend 1 true [0]])).transcriptions.length = 1 := by
  have s1 : stepMain (initMain none) (.audioAppend 0 true bigChunk) =
      ⟨none, false, none, [bigChunk], 0, none, 0, []⟩ := by
    rw [stepMain_append_noGreeting _ _ _ _ rfl,
      acceptAudio_accum _ _ _ bigChunk_ne_nil
        (Or.inr (by norm_num [SPEECH_TIMEOUT, initMain]))]
    rfl
  have s2 : stepMain ⟨none, false, none, [bigChunk], 0, none, 0, []⟩
      (.audioAppend (1 / 2) true [0]) =
      ⟨none, false, none, [bigChunk, [0]], 0, none, 0, []⟩ := by
    rw [stepMain_append_noGreeting _ _ _ _ rfl,
      acceptAudio_accum _ _ _ (by decide)
        (Or.inr (by norm_num [SPEECH_TIMEOUT, List.cons_ne_nil]))]
    rfl
  have s3 : stepMain ⟨none, false, none, [bigChunk, [0]], 0, none, 0, []⟩
      (.audioAppend 1 true [0]) =
      { (⟨none, false, none, [bigChunk, [0]], 0, none, 0, []⟩ : MainState) with
          audioBuffer := [], lastSpeechTime := 0,
          transcriptions := ([] : List (List ℕ)) ++
            [(([bigChunk, [0]] : List (List ℕ)) ++ [[0]]).flatten] } := by
    rw [stepMain_append_noGreeting _ _ _ _ rfl]
    exact acceptAudio_fire ⟨none, false, none, [bigChunk, [0]], 0, none, 0, []⟩ 1 [0]
      (by decide)
      (by simp [totalBytes, bigChunk_length, MIN_BYTES_FLOOR])
      (by norm_num [SPEECH_TIMEOUT, List.cons_ne_nil])
  have hrun2 : runMain none msgsC4 = ⟨none, false, none, [bigChunk, [0]], 0, none, 0, []⟩ := by
    simp only [runMain, runFrom, msgsC4, List.foldl_cons, List.foldl_nil, s1, s2]
  have hrun3 : (runMain none (msgsC4 ++ [.audioAppend 1 true [0]])).transcriptions =
      ([] : List (List ℕ)) ++ [(([bigChunk, [0]] : List (List ℕ)) ++ [[0]]).flatten] := by
    simp only [runMain, runFrom, msgsC4, List.append_eq, List.cons_append, List.nil_append,
      List.foldl_cons, List.foldl_nil, s1, s2, s3]
  refine ⟨by rw [hrun2], by rw [hrun2]; norm_num, ?_⟩
  rw [hrun3]
  simp

/-- Claim C4 (amended): the silence clock is anchored at the utterance's
first chunk: a chunk accepted into a non-empty buffer never changes
`last_speech_time` unless it finalizes the utterance, and finalization
happens exactly when the byte floor is met and at least SPEECH_TIMEOUT
seconds have elapsed since the utterance's first chunk — a fixed elapsed
time from the first chunk, not a contiguous silent tail. -/
theorem silence_timer_fixed_at_first_chunk :
    ∀ (s : MainState) (t : ℚ) (d : Bool) (c : List ℕ),
      s.greetingActive = false → c ≠ [] → s.audioBuffer ≠ [] →
      ((stepMain s (.audioAppend t d c)).transcriptions = s.transcriptions →
        (stepMain s (.audioAppend t d c)).lastSpeechTime = s.lastSpeechTime) ∧
      ((stepMain s (.audioAppend t d c)).transcriptions ≠ s.transcriptions ↔
        MIN_BYTES_FLOOR ≤ totalBytes (s.audioBuffer ++ [c]) ∧
          SPEECH_TIMEOUT ≤ t - s.lastSpeechTime) := by
  intro s t d c hg hc hbuf
  rw [stepMain_append_noGreeting s t d c hg]
  have hts : (if s.audioBuffer = [] then t else s.lastSpeechTime) = s.lastSpeechTime :=
    if_neg hbuf
  by_cases hfl : MIN_BYTES_FLOOR ≤ totalBytes (s.audioBuffer ++ [c])
  · by_cases hsil : SPEECH_TIMEOUT ≤ t - s.lastSpeechTime
    · rw [acceptAudio_fire s t c hc hfl (by rw [hts]; exact hsil)]
      constructor
      · intro habs
        exfalso
        have hlen := congrArg List.length habs
        simp at hlen
      · constructor
        · intro _
          exact ⟨hfl, hsil⟩
        · intro _ habs
          have hlen := congrArg List.length habs
          simp at hlen
    · rw [acceptAudio_accum s t c hc (Or.inr (by rw [hts]; exact hsil))]
      refine ⟨fun _ => hts, ?_⟩
      constructor
      · intro habs
        exact absurd rfl habs
      · intro hcond
        exact absurd hcond.2 hsil
  · rw [acceptAudio_accum s t c hc (Or.inl (Nat.lt_of_not_le hfl))]
    refine ⟨fun _ => hts, ?_⟩
    constructor
    · intro habs
      exact absurd rfl habs
    · intro hcond
      exact absurd hcond.1 hfl

/-- Witness for the amended C4: a second chunk into a non-empty buffer
that does not finalize leaves the timer where the first chunk set it. -/
theorem silence_timer_fixed_witness :
    (stepMain ⟨none, false, none, [[7]], 0, none, 0, []⟩
        (.audioAppend (1 / 2) true [8])).lastSpeechTime = 0 := by
  have h := silence_timer_fixed_at_first_chunk ⟨none, false, none, [[7]], 0, none, 0, []⟩
    (1 / 2) true [8] rfl (by decide) (by decide)
  refine h.1 ?_
  rw [stepMain_append_noGreeting _ _ _ _ rfl,
    acceptAudio_accum _ _ _ (by decide) (Or.inl (by decide))]

/-- Claim C5: when an accepted chunk brings the buffer to the byte floor
and the silence threshold has elapsed since the utterance began, the
handler issues exactly one transcription call whose payload is exactly
the in-order concatenation of every chunk buffered since the previous
finalized utterance, then resets the buffer to empty; an accepted chunk
that does not finalize is appended to the buffer in order with no
transcription call. -/
theorem finalize_exactly_one_concatenated_transcription :
    ∀ (s : MainState) (t : ℚ) (d : Bool) (c : List ℕ),
      s.greetingActive = false → c ≠ [] →
      (MIN_BYTES_FLOOR ≤ totalBytes (s.audioBuffer ++ [c]) →
        SPEECH_TIMEOUT ≤ t - (if s.audioBuffer = [] then t else s.lastSpeechTime) →
        stepMain s (.audioAppend t d c) =
          { s with audioBuffer := [], lastSpeechTime := 0,
                   transcriptions :=
                    s.transcriptions ++ [(s.audioBuffer ++ [c]).flatten] }) ∧
      ((totalBytes (s.audioBuffer ++ [c]) < MIN_BYTES_FLOOR ∨
          ¬(SPEECH_TIMEOUT ≤ t - (if s.audioBuffer = [] then t else s.lastSpeechTime))) →
        stepMain s (.audioAppend t d c) =
          { s with audioBuffer := s.audioBuffer ++ [c],
                   lastSpeechTime :=
                    if s.audioBuffer = [] then t else s.lastSpeechTime }) := by
  intro s t d c hg hc
  rw [stepMain_append_noGreeting s t d c hg]
  exact ⟨fun h1 h2 => acceptAudio_fire s t c hc h1 h2,
         fun h => acceptAudio_accum s t c hc h⟩

/-- Witness for C5: a chunk arriving 2 s after a floor-sized first chunk
finalizes, with the payload being the concatenation of both buffered
chunks and the buffer reset. -/
theorem finalize_witness :
    stepMain ⟨none, false, none, [bigChunk], 0, none, 0, []⟩ (.audioAppend 2 true [5]) =
      { (⟨none, false, none, [bigChunk], 0, none, 0, []⟩ : MainState) with
          audioBuffer := [], lastSpeechTime := 0,
          transcriptions := ([] : List (List ℕ)) ++
            [(([bigChunk] : List (List ℕ)) ++ [[5]]).flatten] } :=
  (finalize_exactly_one_concatenated_transcription
      ⟨none, false, none, [bigChunk], 0, none, 0, []⟩ 2 true [5] rfl (by decide)).1
    (by simp [totalBytes, bigChunk_length, MIN_BYTES_FLOOR])
    (by norm_num [SPEECH_TIMEOUT, List.cons_ne_nil])

/-- Claim C10: while the greeting task is live and less than 15 s have
passed since it started, every inbound audio-append is ignored without
being buffered (the state is left untouched, whatever the task's done
status); and at the first append after the window with the task done, the
handler drops the greeting task, records the finish time, clears the
audio buffer, and starts fresh accumulation with just the new chunk — so
no audio received during the greeting window is ever transcribed. -/
theorem greeting_holdoff_ignores_then_clears :
    (∀ (s : MainState) (t0 : ℚ) (msgs : List InMsg),
        s.greetingActive = true → s.greetingStart = some t0 →
        s.greetingAudioFinishedAt = none →
        (∀ m ∈ msgs, ∃ t dn c, m = InMsg.audioAppend t dn c ∧ t - t0 < GREETING_HOLD) →
        runFrom s msgs = s) ∧
    (∀ (s : MainState) (t0 t : ℚ) (c : List ℕ),
        s.greetingActive = true → s.greetingStart = some t0 →
        s.greetingAudioFinishedAt = none → GREETING_HOLD ≤ t - t0 → c ≠ [] →
        stepMain s (.audioAppend t true c) =
          { s with greetingActive := false, greetingAudioFinishedAt := some t,
                   audioBuffer := [c], lastSpeechTime := t }) := by
  constructor
  · intro s t0 msgs hact hstart hfin hall
    induction msgs with
    | nil => rfl
    | cons m ms ih =>
        obtain ⟨t, dn, c, hm, ht⟩ := hall m (List.mem_cons_self m ms)
        have hstep : stepMain s m = s := by
          rw [hm]
          cases dn with
          | false => simp [stepMain, hact]
          | true =>
              simp only [stepMain, hact]
              rw [if_neg (by simp), if_pos (by simp [hfin]), hstart]
              rw [if_pos ht]
        rw [runFrom_cons, hstep]
        exact ih (fun x hx => hall x (List.mem_cons_of_mem m hx))
  · intro s t0 t c hact hstart hfin hwin hc
    have hstep : stepMain s (.audioAppend t true c) =
        acceptAudio
          { s with greetingActive := false, greetingAudioFinishedAt := some t,
                   audioBuffer := [], lastSpeechTime := 0 } t c := by
      simp only [stepMain, hact]
      rw [if_neg (by simp), if_pos (by simp [hfin]), hstart]
      rw [if_neg (by rw [not_lt]; exact hwin)]
    rw [hstep]
    rw [acceptAudio_accum _ t c hc (Or.inr (by norm_num [SPEECH_TIMEOUT]))]
    rfl

/-- Witness for C10: with a greeting started at t0 = 0, an append at
t = 1 is ignored outright, and an append at t = 20 clears the buffer and
starts a fresh utterance with just that chunk. -/
theorem greeting_holdoff_witness :
    runFrom (initMain (some 0)) [.audioAppend 1 true [9]] = initMain (some 0) ∧
    stepMain (initMain (some 0)) (.audioAppend 20 true [9]) =
      { initMain (some 0) with
          greetingActive := false, greetingAudioFinishedAt := some 20,
          audioBuffer := [[9]], lastSpeechTime := 20 } := by
  constructor
  · refine greeting_holdoff_ignores_then_clears.1 (initMain (some 0)) 0
      [.audioAppend 1 true [9]] rfl rfl rfl ?_
    intro m hm
    simp only [List.mem_singleton] at hm
    refine ⟨1, true, [9], hm, ?_⟩
    norm_num [GREETING_HOLD]
  · exact greeting_holdoff_ignores_then_clears.2 (initMain (some 0)) 0 20 [9]
      rfl rfl rfl (by norm_num [GREETING_HOLD]) (by decide)

/-- Claim C8: if a non-empty transcript was produced and the agent reply
is non-blank but speech synthesis failed or timed out (no audio data),
`_process_utterance` still sends the reply text to the client and returns
True — the turn completes successfully, just without audio events. -/
theorem tts_failure_still_delivers_text :
    ∀ transcript replyText : String,
      transcript ≠ "" → strippedEmpty replyText = false →
      processUtterance transcript replyText none =
        ([OutEvent.userTranscript transcript, OutEvent.responseText replyText], true) := by
  intro transcript replyText ht hr
  unfold processUtterance
  rw [if_neg ht, if_neg (by rw [hr]; exact Bool.false_ne_true)]

/-- Witness for C8 at concrete collaborator results. -/
theorem tts_failure_witness :
    processUtterance "schedule a meeting" "Sure, what time works?" none =
      ([OutEvent.userTranscript "schedule a meeting",
        OutEvent.responseText "Sure, what time works?"], true) :=
  tts_failure_still_delivers_text "schedule a meeting" "Sure, what time works?"
    (by decide) (by decide)

end MainWs
